import Mathlib

/-!
Shallow embedding of the layout engine of the toy-web-browser repository.

The primary source is `src/layout/layout_engine.py` (the engine the browser
entry point instantiates); the modular element variants under `src/elements/`
(`text.py`, `inline.py`, `button.py`, `table/table_calculator.py`) and the
text utilities (`src/layout/text_operations.py`) are embedded separately
where a claim cites them.  Python floats are modelled as rationals; all the
constants involved (16, 1.5, 10, 5, 8, 0.5, 0.2, heading multipliers) are
exactly representable, and every claim is about exact arithmetic identities
that the float program computes with the same expressions.
-/

namespace Toy

/-- `config.DEFAULT_FONT_SIZE` / `LayoutEngine.DEFAULT_FONT_SIZE` (= 16). -/
def DEFAULT_FONT_SIZE : ℚ := 16

/-- `config.LINE_HEIGHT` / `LayoutEngine.LINE_HEIGHT` (= 1.5). -/
def LINE_HEIGHT : ℚ := 3 / 2

/-- `config.MARGIN` / `LayoutEngine.MARGIN` (= 10). -/
def MARGIN : ℚ := 10

/-- `config.PADDING` / `LayoutEngine.PADDING` (= 5). -/
def PADDING : ℚ := 5

/-- `config.CHAR_WIDTH_ESTIMATE` (= 8); also the literal `char_width = 8`
inlined in `_layout_text`. -/
def CHAR_WIDTH_ESTIMATE : ℚ := 8

/-- `LayoutEngine.HEADING_SIZES` / `config.HEADING_SIZES`: the tag-to-multiplier
dictionary; `none` models absence of the key. -/
def HEADING_SIZES (tag : String) : Option ℚ :=
  if tag = "h1" then some 2
  else if tag = "h2" then some (7/4)
  else if tag = "h3" then some (3/2)
  else if tag = "h4" then some (5/4)
  else if tag = "h5" then some (11/10)
  else if tag = "h6" then some 1
  else none

/-- `DOMNode` from `src/parser/html_parser.py`, restricted to the fields the
layout engine reads: tag, optional text and the ordered children.  Attributes
and the parent back-reference are never consulted by the layout code under
verification. -/
inductive DOMNode where
  | mk (tag : String) (text : Option String) (children : List DOMNode)

/-- The node's tag. -/
def DOMNode.tag : DOMNode → String
  | .mk t _ _ => t

/-- The node's text (`None` modelled as `none`). -/
def DOMNode.text : DOMNode → Option String
  | .mk _ t _ => t

/-- The node's ordered children. -/
def DOMNode.children : DOMNode → List DOMNode
  | .mk _ _ c => c

/-- `Box` from `src/layout/layout_engine.py`: x, y, width, height. -/
structure Box where
  x : ℚ
  y : ℚ
  width : ℚ
  height : ℚ
deriving DecidableEq

/-- `LayoutNode` from `src/layout/layout_engine.py`: the DOM node it mirrors,
its box, the owned children and the optional annotations (`lines`,
`font_size`, `marker`, `marker_pos`).  `displayText` models the dynamic
`button_text` attribute that `ButtonElement.layout` injects. -/
inductive LayoutNode where
  | mk (dom : DOMNode) (box : Box) (children : List LayoutNode)
      (lines : Option (List String)) (fontSize : Option ℚ)
      (marker : Option String) (markerPos : Option (ℚ × ℚ))
      (displayText : Option String)

/-- The mirrored DOM node. -/
def LayoutNode.dom : LayoutNode → DOMNode
  | .mk d _ _ _ _ _ _ _ => d

/-- The node's box. -/
def LayoutNode.box : LayoutNode → Box
  | .mk _ b _ _ _ _ _ _ => b

/-- The node's layout children. -/
def LayoutNode.children : LayoutNode → List LayoutNode
  | .mk _ _ c _ _ _ _ _ => c

/-- The wrapped-lines annotation. -/
def LayoutNode.lines : LayoutNode → Option (List String)
  | .mk _ _ _ l _ _ _ _ => l

/-- The overridden font size annotation. -/
def LayoutNode.fontSize : LayoutNode → Option ℚ
  | .mk _ _ _ _ f _ _ _ => f

/-- The list-marker annotation. -/
def LayoutNode.marker : LayoutNode → Option String
  | .mk _ _ _ _ _ m _ _ => m

/-- The marker-position annotation. -/
def LayoutNode.markerPos : LayoutNode → Option (ℚ × ℚ)
  | .mk _ _ _ _ _ _ p _ => p

/-- The dynamic display-text annotation (set by the button element). -/
def LayoutNode.displayText : LayoutNode → Option String
  | .mk _ _ _ _ _ _ _ t => t

/-- Python `str.strip()` with no argument, on the ASCII whitespace the test
documents use: drop leading and trailing whitespace characters. -/
def pyStrip (s : String) : String :=
  ⟨((s.data.dropWhile Char.isWhitespace).reverse.dropWhile
      Char.isWhitespace).reverse⟩

/-- The accumulating loop behind `str.split()`: whitespace runs separate
words, empty pieces are dropped; `cur` holds the current word reversed. -/
def pyWordsAux : List Char → List Char → List String
  | [], cur => if cur.isEmpty then [] else [⟨cur.reverse⟩]
  | c :: cs, cur =>
      if c.isWhitespace then
        if cur.isEmpty then pyWordsAux cs []
        else (⟨cur.reverse⟩ : String) :: pyWordsAux cs []
      else pyWordsAux cs (c :: cur)

/-- Python `str.split()` with no argument: split on whitespace runs and drop
the empty pieces. -/
def pySplit (s : String) : List String :=
  pyWordsAux s.data []

/-- Python `" ".join(words)`. -/
def joinWords : List String → String
  | [] => ""
  | [w] => w
  | w :: ws => w ++ " " ++ joinWords ws

/-- Python truthiness of an optional string: `None` and `""` are falsy. -/
def strTruthy : Option String → Bool
  | none => false
  | some s => s ≠ ""

/-- The greedy accumulation loop shared by `TextOperations.wrap_text`,
`LayoutUtils.wrap_text` and the loop inlined in `_layout_text` /
`_layout_text_with_width`, kept at the word-list level: `current_line` is the
source's list of words and the `" ".join` of the source is applied by
`wrapText` to exactly the same lists this function emits. -/
def wrapLines (maxWidth charWidth : ℚ) :
    List String → List String → ℚ → List (List String)
  | [], currentLine, _ =>
      if currentLine.isEmpty then [] else [currentLine]
  | w :: ws, currentLine, lineWidth =>
      let wordWidth := (w.length : ℚ) * charWidth
      if lineWidth + wordWidth > maxWidth ∧ currentLine ≠ [] then
        currentLine :: wrapLines maxWidth charWidth ws [w] wordWidth
      else
        wrapLines maxWidth charWidth ws (currentLine ++ [w])
          (lineWidth + wordWidth + charWidth)

/-- `TextOperations.wrap_text` from `src/layout/text_operations.py` (also the
loop inlined in `_layout_text`): `words = text.split()`, greedy accumulation,
then each closed line is `" ".join(current_line)`. -/
def wrapText (text : String) (maxWidth charWidth : ℚ) : List String :=
  (wrapLines maxWidth charWidth (pySplit text) [] 0).map joinWords

/-- `cell.tag in ["td", "th"]`. -/
def isTdTh (c : DOMNode) : Bool :=
  c.tag = "td" || c.tag = "th"

/-- The engine's per-tag dispatch: the `elif` chain of
`LayoutEngine._layout_node` in `src/layout/layout_engine.py`, as a closed
set of behaviors.  The final `else` arm (unknown tags) is the same `.block`
behavior the explicit block tags receive. -/
inductive EngineKind where
  | text | block | heading | list | listItem | lineBreak | rule
  | inlineWrap | table | tableRow | tableCell
deriving DecidableEq

/-- The tag tests of `_layout_node`, in source order. -/
def dispatchKind (tag : String) : EngineKind :=
  if tag = "text" then .text
  else if tag = "p" ∨ tag = "div" ∨ tag = "blockquote" ∨ tag = "pre" then .block
  else if (HEADING_SIZES tag).isSome then .heading
  else if tag = "ul" ∨ tag = "ol" then .list
  else if tag = "li" then .listItem
  else if tag = "br" then .lineBreak
  else if tag = "hr" then .rule
  else if tag = "b" ∨ tag = "i" ∨ tag = "u" ∨ tag = "strong" ∨ tag = "em" ∨
          tag = "code" ∨ tag = "span" ∨ tag = "a" then .inlineWrap
  else if tag = "table" then .table
  else if tag = "tr" then .tableRow
  else if tag = "td" ∨ tag = "th" then .tableCell
  else .block

/-- `LayoutEngine._layout_text_with_width`: strip the text, wrap it at the
given width, stack the lines; an empty result leaves the default box and the
cursor untouched. -/
def layoutTextWithWidth (x maxWidth : ℚ) (n : DOMNode) (y : ℚ) :
    LayoutNode × ℚ :=
  let text := pyStrip (n.text.getD "")
  if text = "" then
    (.mk n ⟨0, 0, 0, 0⟩ [] none none none none none, y)
  else
    let lines := wrapText text maxWidth CHAR_WIDTH_ESTIMATE
    let height := (lines.length : ℚ) * DEFAULT_FONT_SIZE * LINE_HEIGHT
    (.mk n ⟨x, y, maxWidth, height⟩ [] (some lines) none none none none,
      y + height)

/-- `LayoutEngine._layout_text`: the same loop with
`max_width = viewport_width - 2 * x`. -/
def layoutText (v x : ℚ) (n : DOMNode) (y : ℚ) : LayoutNode × ℚ :=
  layoutTextWithWidth x (v - 2 * x) n y

/-- The loop body of `_layout_heading`: only direct children with
`child.tag == "text" and child.text` whose stripped text is nonempty produce
a (height-overridden) text layout node. -/
def headingRun (v x mult : ℚ) : List DOMNode → ℚ → List LayoutNode × ℚ
  | [], y => ([], y)
  | c :: cs, y =>
      if c.tag = "text" ∧ strTruthy c.text then
        if pyStrip (c.text.getD "") ≠ "" then
          let height := DEFAULT_FONT_SIZE * mult * LINE_HEIGHT
          let node : LayoutNode :=
            .mk c ⟨x, y, v - 2 * x, height⟩ [] none
              (some (DEFAULT_FONT_SIZE * mult)) none none none
          let rest := headingRun v x mult cs (y + height)
          (node :: rest.1, rest.2)
        else headingRun v x mult cs y
      else headingRun v x mult cs y

/-- `LayoutEngine._layout_heading`. -/
def layoutHeading (v x : ℚ) (n : DOMNode) (y : ℚ) : LayoutNode × ℚ :=
  match n with
  | .mk t tx cs =>
    let mult := (HEADING_SIZES t).getD 1
    let startY := y
    let r := headingRun v x mult cs (y + MARGIN * (3/2))
    let yEnd := r.2 + MARGIN * (3/2)
    (.mk (.mk t tx cs) ⟨x, startY, v - 2 * x, yEnd - startY⟩ r.1
      none none none none none, yEnd)

mutual

/-- `LayoutEngine._layout_node`: dispatch a single DOM node. -/
def layoutNode (v x : ℚ) (n : DOMNode) (y : ℚ) : Option LayoutNode × ℚ :=
  match dispatchKind n.tag with
  | .text =>
      let r := layoutText v x n y
      (some r.1, r.2)
  | .block =>
      let r := layoutBlock v x n y
      (some r.1, r.2)
  | .heading =>
      let r := layoutHeading v x n y
      (some r.1, r.2)
  | .list =>
      let r := layoutList v x n y
      (some r.1, r.2)
  | .listItem =>
      let r := layoutListItem v x n none false y
      (some r.1, r.2)
  | .lineBreak => (none, y + DEFAULT_FONT_SIZE * (1/2))
  | .rule =>
      (some (.mk n ⟨x, y, v - 2 * x, 2⟩ [] none none none none none), y + 10)
  | .inlineWrap =>
      let r := layoutInlineWrap v x n y
      (some r.1, r.2)
  | .table =>
      let r := layoutTable v x n y
      (some r.1, r.2)
  | .tableRow =>
      let r := layoutTableRowWithWidth v x 100 1 n y
      (some r.1, r.2)
  | .tableCell =>
      let r := layoutTableCellWithWidth v x 100 n y
      (some r.1, r.2)
termination_by (sizeOf n, 2)

/-- The child loop shared by `_layout_block`, `_layout_list_item` and
`_layout_inline`: lay out each child, keeping the non-`None` results. -/
def layoutChildren (v x : ℚ) (l : List DOMNode) (y : ℚ) :
    List LayoutNode × ℚ :=
  match l with
  | [] => ([], y)
  | c :: cs =>
    let r := layoutNode v x c y
    let rest := layoutChildren v x cs r.2
    match r.1 with
    | some ln => (ln :: rest.1, rest.2)
    | none => rest
termination_by (sizeOf l, 3)

/-- `LayoutEngine._layout_block`. -/
def layoutBlock (v x : ℚ) (n : DOMNode) (y : ℚ) : LayoutNode × ℚ :=
  match n with
  | .mk t tx cs =>
    let startY := y
    let r := layoutChildren v (x + PADDING) cs (y + MARGIN)
    let yEnd := r.2 + MARGIN
    (.mk (.mk t tx cs) ⟨x, startY, v - 2 * x, yEnd - startY⟩ r.1
      none none none none none, yEnd)
termination_by (sizeOf n, 1)

/-- The loop body of `_layout_list`: `enumerate` over all children, laying
out only the `li` ones (the running index counts every child). -/
def listRun (v itemX : ℚ) (ordered : Bool) (l : List DOMNode) (i : ℕ)
    (y : ℚ) : List LayoutNode × ℚ :=
  match l with
  | [] => ([], y)
  | c :: cs =>
    if c.tag = "li" then
      let r := layoutListItem v itemX c (some (i + 1)) ordered y
      let rest := listRun v itemX ordered cs (i + 1) r.2
      (r.1 :: rest.1, rest.2)
    else listRun v itemX ordered cs (i + 1) y
termination_by (sizeOf l, 3)

/-- `LayoutEngine._layout_list`. -/
def layoutList (v x : ℚ) (n : DOMNode) (y : ℚ) : LayoutNode × ℚ :=
  match n with
  | .mk t tx cs =>
    let startY := y
    let r := listRun v (x + 25) (t = "ol") cs 0 (y + MARGIN)
    let yEnd := r.2 + MARGIN
    (.mk (.mk t tx cs) ⟨x, startY, v - 2 * x, yEnd - startY⟩ r.1
      none none none none none, yEnd)
termination_by (sizeOf n, 1)

/-- `LayoutEngine._layout_list_item`: marker and marker position only when an
index is supplied; children at the same `x`; half a margin after. -/
def layoutListItem (v x : ℚ) (n : DOMNode) (index : Option ℕ)
    (ordered : Bool) (y : ℚ) : LayoutNode × ℚ :=
  match n with
  | .mk t tx cs =>
    let startY := y
    let marker : Option String :=
      index.map fun i => if ordered then toString i ++ "." else "•"
    let markerPos : Option (ℚ × ℚ) :=
      index.map fun _ => (x - 20, y + DEFAULT_FONT_SIZE * (1/5))
    let r := layoutChildren v x cs y
    let yEnd := r.2 + MARGIN * (1/2)
    (.mk (.mk t tx cs) ⟨x, startY, v - 2 * x, yEnd - startY⟩ r.1
      none none marker markerPos none, yEnd)
termination_by (sizeOf n, 1)

/-- `LayoutEngine._layout_inline`: children at the same `x`, default box,
node returned unconditionally. -/
def layoutInlineWrap (v x : ℚ) (n : DOMNode) (y : ℚ) : LayoutNode × ℚ :=
  match n with
  | .mk t tx cs =>
    let r := layoutChildren v x cs y
    (.mk (.mk t tx cs) ⟨0, 0, 0, 0⟩ r.1 none none none none none, r.2)
termination_by (sizeOf n, 1)

/-- `LayoutEngine._layout_table`: margin first, then rows (`tr` children);
no rows or a zero column count in the first row returns the empty node
early (box height still 0, the leading margin already consumed). -/
def layoutTable (v x : ℚ) (n : DOMNode) (y : ℚ) : LayoutNode × ℚ :=
  match n with
  | .mk t tx cs =>
    let startY := y
    let y1 := y + MARGIN
    match cs.filter (fun c => c.tag = "tr") with
    | [] =>
        (.mk (.mk t tx cs) ⟨x, startY, v - 2 * x, 0⟩ [] none none none none
          none, y1)
    | firstRow :: _ =>
      let numCols := (firstRow.children.filter (fun c => isTdTh c)).length
      if numCols = 0 then
        (.mk (.mk t tx cs) ⟨x, startY, v - 2 * x, 0⟩ [] none none none none
          none, y1)
      else
        let colWidth := (v - 2 * x - 2 * PADDING) / (numCols : ℚ)
        -- `for row in rows` over the filtered rows, written as the
        -- equivalent guarded loop over the children.
        let r := tableRowsRun v x colWidth numCols cs y1
        let yEnd := r.2 + MARGIN
        (.mk (.mk t tx cs) ⟨x, startY, v - 2 * x, yEnd - startY⟩ r.1
          none none none none none, yEnd)
termination_by (sizeOf n, 1)

/-- The row loop of `_layout_table`: each `tr` child is laid out with the
computed column width; every row yields a node and is appended. -/
def tableRowsRun (v x colWidth : ℚ) (numCols : ℕ) (l : List DOMNode)
    (y : ℚ) : List LayoutNode × ℚ :=
  match l with
  | [] => ([], y)
  | c :: cs =>
    if c.tag = "tr" then
      let r := layoutTableRowWithWidth v x colWidth numCols c y
      let rest := tableRowsRun v x colWidth numCols cs r.2
      (r.1 :: rest.1, rest.2)
    else tableRowsRun v x colWidth numCols cs y
termination_by (sizeOf l, 3)

/-- `LayoutEngine._layout_table_row_with_width`: run the cell loop, then
overwrite the cursor with `start_y + row_height + 2 * PADDING` where
`row_height = max(collected, DEFAULT_FONT_SIZE * LINE_HEIGHT)`. -/
def layoutTableRowWithWidth (v x colWidth : ℚ) (numCols : ℕ) (n : DOMNode)
    (y : ℚ) : LayoutNode × ℚ :=
  match n with
  | .mk t tx cs =>
    let startY := y
    let r := rowCellsRun v colWidth numCols startY cs (x + PADDING) 0 0 y
    let rowHeight := max r.2.1 (DEFAULT_FONT_SIZE * LINE_HEIGHT)
    let yEnd := startY + rowHeight + 2 * PADDING
    (.mk (.mk t tx cs) ⟨x, startY, v - 2 * x, rowHeight + 2 * PADDING⟩ r.1
      none none none none none, yEnd)
termination_by (sizeOf n, 1)

/-- The cell loop of `_layout_table_row_with_width`: for each `td`/`th`
child while `cell_index < num_cols`, save the cursor, rewind it to
`start_y + PADDING`, lay the cell out at `current_x` with width
`col_width - 2 * PADDING`, record `current_y - start_y - PADDING` into the
running maximum, restore the cursor, advance `current_x` and the index.
Returns (cells, row_height, cursor). -/
def rowCellsRun (v colWidth : ℚ) (numCols : ℕ) (startY : ℚ)
    (l : List DOMNode) (curX : ℚ) (cellIndex : ℕ) (rowHeight : ℚ)
    (y : ℚ) : List LayoutNode × ℚ × ℚ :=
  match l with
  | [] => ([], rowHeight, y)
  | c :: cs =>
    if isTdTh c ∧ cellIndex < numCols then
      let savedY := y
      let rc := layoutTableCellWithWidth v curX (colWidth - 2 * PADDING) c
        (startY + PADDING)
      let cellHeight := rc.2 - startY - PADDING
      let rest := rowCellsRun v colWidth numCols startY cs (curX + colWidth)
        (cellIndex + 1) (max rowHeight cellHeight) savedY
      (rc.1 :: rest.1, rest.2.1, rest.2.2)
    else rowCellsRun v colWidth numCols startY cs curX cellIndex rowHeight y
termination_by (sizeOf l, 3)

/-- `LayoutEngine._layout_table_cell_with_width`: children at `x + PADDING`
(text children with width `width - 2 * PADDING`); an empty cell still gets
the minimum height. -/
def layoutTableCellWithWidth (v x width : ℚ) (n : DOMNode) (y : ℚ) :
    LayoutNode × ℚ :=
  match n with
  | .mk t tx cs =>
    let startY := y
    let r := cellChildrenRun v x width cs y
    let y1 := if r.2 = startY then startY + DEFAULT_FONT_SIZE * LINE_HEIGHT
      else r.2
    (.mk (.mk t tx cs) ⟨x, startY, width, y1 - startY⟩ r.1
      none none none none none, y1)
termination_by (sizeOf n, 1)

/-- The child loop of `_layout_table_cell_with_width`. -/
def cellChildrenRun (v x width : ℚ) (l : List DOMNode) (y : ℚ) :
    List LayoutNode × ℚ :=
  match l with
  | [] => ([], y)
  | c :: cs =>
    let r : Option LayoutNode × ℚ :=
      if c.tag = "text" then
        let t := layoutTextWithWidth (x + PADDING) (width - 2 * PADDING) c y
        (some t.1, t.2)
      else layoutNode v (x + PADDING) c y
    let rest := cellChildrenRun v x width cs r.2
    match r.1 with
    | some ln => (ln :: rest.1, rest.2)
    | none => rest
termination_by (sizeOf l, 3)

end

/-- The root loop of `compute_layout`: children laid out at
`layout_root.box.x + MARGIN`, text children skipped unless
`child.text and child.text.strip()` is truthy. -/
def rootChildrenRun (v : ℚ) (l : List DOMNode) (y : ℚ) :
    List LayoutNode × ℚ :=
  match l with
  | [] => ([], y)
  | c :: cs =>
    if c.tag ≠ "text" ∨ (strTruthy c.text ∧ pyStrip (c.text.getD "") ≠ "") then
      let r := layoutNode v (0 + MARGIN) c y
      let rest := rootChildrenRun v cs r.2
      match r.1 with
      | some ln => (ln :: rest.1, rest.2)
      | none => rest
    else rootChildrenRun v cs y

/-- `LayoutEngine.compute_layout`: fresh engine (cursor 0), root box
`(0, 0, viewport_width, final_cursor)`. -/
def computeLayout (v : ℚ) (root : DOMNode) : LayoutNode :=
  let r := rootChildrenRun v root.children 0
  .mk root ⟨0, 0, v, r.2⟩ r.1 none none none none none

/-- `TableCalculator.calculate_column_widths` from
`src/elements/table/table_calculator.py`. -/
def calculateColumnWidths (rows : List DOMNode) (viewportWidth x : ℚ) :
    ℚ × ℕ :=
  match rows with
  | [] => (0, 0)
  | firstRow :: _ =>
    let numCols := (firstRow.children.filter (fun c => isTdTh c)).length
    if numCols = 0 then (0, 0)
    else ((viewportWidth - 2 * x - 2 * PADDING) / (numCols : ℚ), numCols)

/-- The `tr` children of a table node (`TableCalculator.get_table_rows`). -/
def tableRows (n : DOMNode) : List DOMNode :=
  n.children.filter (fun c => c.tag = "tr")

/-- The column count `_layout_table` derives: `td`/`th` count of the first
`tr` child, `0` when there is none. -/
def tableNumCols (n : DOMNode) : ℕ :=
  match tableRows n with
  | [] => 0
  | firstRow :: _ => (firstRow.children.filter (fun c => isTdTh c)).length

/-- `TextElement.layout` from `src/elements/text.py` (the modular variant):
returns `None` for empty or whitespace-only text; `maxWidth?` models the
optional `max_width` keyword argument. -/
def textElementLayout (v x : ℚ) (maxWidth? : Option ℚ) (n : DOMNode)
    (y : ℚ) : Option LayoutNode × ℚ :=
  let text := pyStrip (n.text.getD "")
  if text = "" then (none, y)
  else
    let maxWidth := maxWidth?.getD (v - 2 * x)
    let lines := wrapText text maxWidth 8
    let height := (lines.length : ℚ) * DEFAULT_FONT_SIZE * LINE_HEIGHT
    (some (.mk n ⟨x, y, maxWidth, height⟩ [] (some lines) none none none
      none), y + height)

mutual

/-- `ButtonElement._get_button_text`'s inner `extract_text`: a text node
contributes its raw text, any other node the concatenation over its
children. -/
def extractText (n : DOMNode) : String :=
  match n with
  | .mk tag tx cs => if tag = "text" then tx.getD "" else extractTextList cs
termination_by (sizeOf n, 1)

/-- The concatenation loop of `extract_text`. -/
def extractTextList (l : List DOMNode) : String :=
  match l with
  | [] => ""
  | c :: cs => extractText c ++ extractTextList cs
termination_by (sizeOf l, 2)

end

/-- `ButtonElement.layout` from `src/elements/button.py`: `None` when the
stripped extracted text is empty, otherwise an estimate-sized box and a
cursor advance of `height + MARGIN`. -/
def buttonElementLayout (x : ℚ) (n : DOMNode) (y : ℚ) :
    Option LayoutNode × ℚ :=
  let text := pyStrip (extractText n)
  if text = "" then (none, y)
  else
    let buttonPadding := PADDING * 2
    let lineHeight := DEFAULT_FONT_SIZE * LINE_HEIGHT
    let textWidth := (text.length : ℚ) * CHAR_WIDTH_ESTIMATE
    let buttonWidth := textWidth + 2 * buttonPadding
    let buttonHeight := lineHeight + 2 * buttonPadding
    (some (.mk n ⟨x, y, buttonWidth, buttonHeight⟩ [] none none none none
      (some text)), y + buttonHeight + MARGIN)

/-- `InlineElement.layout` from `src/elements/inline.py` (the modular
variant): children at the same `x`, but `None` when every child yielded
nothing.  Modelled from the spec: the engine method `_layout_child` this
file calls does not exist in the source; following §4.1/§4.2 of the spec it
is taken to be the engine's per-node dispatch (`layoutNode`). -/
def inlineElementLayout (v x : ℚ) (n : DOMNode) (y : ℚ) :
    Option LayoutNode × ℚ :=
  let r := layoutChildren v x n.children y
  (if r.1.isEmpty then none
   else some (.mk n ⟨0, 0, 0, 0⟩ r.1 none none none none none), r.2)

/-- A chain of `k + 1` nested `div` elements. -/
def nestDiv : ℕ → DOMNode
  | 0 => .mk "div" none []
  | k + 1 => .mk "div" none [nestDiv k]

/-- Follow first children `k` levels down a layout tree. -/
def descend : ℕ → LayoutNode → Option LayoutNode
  | 0, ln => some ln
  | k + 1, ln =>
    match ln.children with
    | [] => none
    | c :: _ => descend k c

/-- The box width at depth `k` (first-child chain), `0` when absent. -/
def widthAtDepth (k : ℕ) (ln : LayoutNode) : ℚ :=
  match descend k ln with
  | some nd => nd.box.width
  | none => 0

/-! ## Cursor monotonicity -/

theorem heading_mult_nonneg (t : String) : 0 ≤ (HEADING_SIZES t).getD 1 := by
  unfold HEADING_SIZES
  repeat' split
  all_goals norm_num

theorem layoutTextWithWidth_y_le (x w : ℚ) (n : DOMNode) (y : ℚ) :
    y ≤ (layoutTextWithWidth x w n y).2 := by
  simp only [layoutTextWithWidth]
  split
  · exact le_rfl
  · have h : (0 : ℚ) ≤
        ((wrapText (pyStrip (n.text.getD "")) w CHAR_WIDTH_ESTIMATE).length : ℚ) *
          DEFAULT_FONT_SIZE * LINE_HEIGHT := by
      norm_num [DEFAULT_FONT_SIZE, LINE_HEIGHT]
    dsimp only
    linarith

theorem layoutText_y_le (v x : ℚ) (n : DOMNode) (y : ℚ) :
    y ≤ (layoutText v x n y).2 :=
  layoutTextWithWidth_y_le x (v - 2 * x) n y

theorem headingRun_y_le (v x mult : ℚ) (hm : 0 ≤ mult) :
    ∀ (l : List DOMNode) (y : ℚ), y ≤ (headingRun v x mult l y).2 := by
  intro l
  induction l with
  | nil => intro y; simp [headingRun]
  | cons c cs ih =>
    intro y
    have hh : (0 : ℚ) ≤ DEFAULT_FONT_SIZE * mult * LINE_HEIGHT := by
      have h1 : (0 : ℚ) ≤ DEFAULT_FONT_SIZE := by norm_num [DEFAULT_FONT_SIZE]
      have h2 : (0 : ℚ) ≤ LINE_HEIGHT := by norm_num [LINE_HEIGHT]
      exact mul_nonneg (mul_nonneg h1 hm) h2
    simp only [headingRun]
    split
    · split
      · have := ih (y + DEFAULT_FONT_SIZE * mult * LINE_HEIGHT)
        dsimp only
        linarith
      · exact ih y
    · exact ih y

theorem layoutHeading_y_le (v x : ℚ) (n : DOMNode) (y : ℚ) :
    y ≤ (layoutHeading v x n y).2 := by
  obtain ⟨t, tx, cs⟩ := n
  simp only [layoutHeading]
  have hm := heading_mult_nonneg t
  have h1 := headingRun_y_le v x ((HEADING_SIZES t).getD 1) hm cs
      (y + MARGIN * (3/2))
  have h2 : (0 : ℚ) ≤ MARGIN * (3/2) := by norm_num [MARGIN]
  linarith

theorem layoutTableRowWithWidth_y_le (v x colWidth : ℚ) (numCols : ℕ)
    (n : DOMNode) (y : ℚ) : y ≤ (layoutTableRowWithWidth v x colWidth numCols n y).2 := by
  obtain ⟨t, tx, cs⟩ := n
  simp only [layoutTableRowWithWidth]
  have h1 : DEFAULT_FONT_SIZE * LINE_HEIGHT ≤
      max (rowCellsRun v colWidth numCols y cs (x + PADDING) 0 0 y).2.1
        (DEFAULT_FONT_SIZE * LINE_HEIGHT) := le_max_right _ _
  have h2 : (0 : ℚ) < DEFAULT_FONT_SIZE * LINE_HEIGHT := by
    norm_num [DEFAULT_FONT_SIZE, LINE_HEIGHT]
  have h3 : (0 : ℚ) ≤ PADDING := by norm_num [PADDING]
  linarith

theorem tableRowsRun_y_le (v x colWidth : ℚ) (numCols : ℕ) :
    ∀ (l : List DOMNode) (y : ℚ), y ≤ (tableRowsRun v x colWidth numCols l y).2 := by
  intro l
  induction l with
  | nil => intro y; simp [tableRowsRun]
  | cons c cs ih =>
    intro y
    simp only [tableRowsRun]
    split
    · have ha := layoutTableRowWithWidth_y_le v x colWidth numCols c y
      have hb := ih (layoutTableRowWithWidth v x colWidth numCols c y).2
      dsimp only
      linarith
    · exact ih y

theorem layoutTable_y_le (v x : ℚ) (n : DOMNode) (y : ℚ) :
    y ≤ (layoutTable v x n y).2 := by
  obtain ⟨t, tx, cs⟩ := n
  simp only [layoutTable]
  have hM : (0 : ℚ) ≤ MARGIN := by norm_num [MARGIN]
  split
  · dsimp only
    linarith
  · split
    · dsimp only
      linarith
    · dsimp only
      rename_i fr tl heq hcols
      have hrun := tableRowsRun_y_le v x
        ((v - 2 * x - 2 * PADDING) /
          (((fr.children.filter (fun c => isTdTh c)).length : ℕ) : ℚ))
        ((fr.children.filter (fun c => isTdTh c)).length) cs (y + MARGIN)
      linarith

mutual

theorem layoutNode_y_le (v x : ℚ) (n : DOMNode) (y : ℚ) :
    y ≤ (layoutNode v x n y).2 := by
  simp only [layoutNode]
  cases hk : dispatchKind n.tag with
  | text => simp only [hk]; exact layoutText_y_le v x n y
  | block => simp only [hk]; exact layoutBlock_y_le v x n y
  | heading => simp only [hk]; exact layoutHeading_y_le v x n y
  | list => simp only [hk]; exact layoutList_y_le v x n y
  | listItem => simp only [hk]; exact layoutListItem_y_le v x n none false y
  | lineBreak => simp only [hk]; norm_num [DEFAULT_FONT_SIZE]
  | rule => simp only [hk]; linarith
  | inlineWrap => simp only [hk]; exact layoutInlineWrap_y_le v x n y
  | table => simp only [hk]; exact layoutTable_y_le v x n y
  | tableRow => simp only [hk]; exact layoutTableRowWithWidth_y_le v x 100 1 n y
  | tableCell => simp only [hk]; exact layoutTableCellWithWidth_y_le v x 100 n y
termination_by (sizeOf n, 2)

theorem layoutChildren_y_le (v x : ℚ) (l : List DOMNode) (y : ℚ) :
    y ≤ (layoutChildren v x l y).2 := by
  match l with
  | [] => simp [layoutChildren]
  | c :: cs =>
    have h1 := layoutNode_y_le v x c y
    have h2 := layoutChildren_y_le v x cs (layoutNode v x c y).2
    simp only [layoutChildren]
    split <;> linarith
termination_by (sizeOf l, 3)

theorem layoutBlock_y_le (v x : ℚ) (n : DOMNode) (y : ℚ) :
    y ≤ (layoutBlock v x n y).2 := by
  match n with
  | .mk t tx cs =>
    have h1 := layoutChildren_y_le v (x + PADDING) cs (y + MARGIN)
    simp only [layoutBlock]
    have hM : (0 : ℚ) ≤ MARGIN := by norm_num [MARGIN]
    linarith
termination_by (sizeOf n, 1)

theorem listRun_y_le (v itemX : ℚ) (ordered : Bool) (l : List DOMNode)
    (i : ℕ) (y : ℚ) : y ≤ (listRun v itemX ordered l i y).2 := by
  match l with
  | [] => simp [listRun]
  | c :: cs =>
    have h1 := layoutListItem_y_le v itemX c (some (i + 1)) ordered y
    have h2 := listRun_y_le v itemX ordered cs (i + 1)
      (layoutListItem v itemX c (some (i + 1)) ordered y).2
    have h3 := listRun_y_le v itemX ordered cs (i + 1) y
    simp only [listRun]
    split <;> linarith
termination_by (sizeOf l, 3)

theorem layoutList_y_le (v x : ℚ) (n : DOMNode) (y : ℚ) :
    y ≤ (layoutList v x n y).2 := by
  match n with
  | .mk t tx cs =>
    have h1 := listRun_y_le v (x + 25) (t = "ol") cs 0 (y + MARGIN)
    simp only [layoutList]
    have hM : (0 : ℚ) ≤ MARGIN := by norm_num [MARGIN]
    linarith
termination_by (sizeOf n, 1)

theorem layoutListItem_y_le (v x : ℚ) (n : DOMNode) (index : Option ℕ)
    (ordered : Bool) (y : ℚ) :
    y ≤ (layoutListItem v x n index ordered y).2 := by
  match n with
  | .mk t tx cs =>
    have h1 := layoutChildren_y_le v x cs y
    simp only [layoutListItem]
    have hM : (0 : ℚ) ≤ MARGIN * (1/2) := by norm_num [MARGIN]
    linarith
termination_by (sizeOf n, 1)

theorem layoutInlineWrap_y_le (v x : ℚ) (n : DOMNode) (y : ℚ) :
    y ≤ (layoutInlineWrap v x n y).2 := by
  match n with
  | .mk t tx cs =>
    have h1 := layoutChildren_y_le v x cs y
    simp only [layoutInlineWrap]
    exact h1
termination_by (sizeOf n, 1)

theorem layoutTableCellWithWidth_y_le (v x width : ℚ) (n : DOMNode) (y : ℚ) :
    y ≤ (layoutTableCellWithWidth v x width n y).2 := by
  match n with
  | .mk t tx cs =>
    have h1 := cellChildrenRun_y_le v x width cs y
    simp only [layoutTableCellWithWidth]
    split
    · have : (0 : ℚ) ≤ DEFAULT_FONT_SIZE * LINE_HEIGHT := by
        norm_num [DEFAULT_FONT_SIZE, LINE_HEIGHT]
      linarith
    · linarith
termination_by (sizeOf n, 1)

theorem cellChildrenRun_y_le (v x width : ℚ) (l : List DOMNode) (y : ℚ) :
    y ≤ (cellChildrenRun v x width l y).2 := by
  match l with
  | [] => simp [cellChildrenRun]
  | c :: cs =>
    by_cases hc : c.tag = "text"
    · have h1 := layoutTextWithWidth_y_le (x + PADDING) (width - 2 * PADDING) c y
      have h2 := cellChildrenRun_y_le v x width cs
        (layoutTextWithWidth (x + PADDING) (width - 2 * PADDING) c y).2
      simp only [cellChildrenRun, if_pos hc]
      linarith
    · have h1 := layoutNode_y_le v (x + PADDING) c y
      have h2 := cellChildrenRun_y_le v x width cs (layoutNode v (x + PADDING) c y).2
      simp only [cellChildrenRun, if_neg hc]
      split <;> linarith
termination_by (sizeOf l, 3)

end

/-! ## Element factory (`src/elements/element_factory.py`) -/

/-- The element classes of the modular variant. -/
inductive ElementClass where
  | textE | headingE | blockE | preE | buttonE | inputE | selectE | optionE
  | listE | listItemE | inlineE | tableE | tableRowE | tableCellE
  | breakE | hrE
deriving DecidableEq

/-- `ElementFactory.TAG_TO_ELEMENT`: the static tag-to-class dictionary;
`none` models a missing key. -/
def TAG_TO_ELEMENT (tag : String) : Option ElementClass :=
  if tag = "text" then some .textE
  else if tag = "h1" ∨ tag = "h2" ∨ tag = "h3" ∨ tag = "h4" ∨ tag = "h5" ∨
      tag = "h6" then some .headingE
  else if tag = "p" ∨ tag = "div" ∨ tag = "blockquote" then some .blockE
  else if tag = "pre" then some .preE
  else if tag = "button" then some .buttonE
  else if tag = "input" then some .inputE
  else if tag = "select" then some .selectE
  else if tag = "option" then some .optionE
  else if tag = "ul" ∨ tag = "ol" then some .listE
  else if tag = "li" then some .listItemE
  else if tag = "b" ∨ tag = "i" ∨ tag = "u" ∨ tag = "strong" ∨ tag = "em" ∨
      tag = "code" ∨ tag = "span" ∨ tag = "a" then some .inlineE
  else if tag = "table" then some .tableE
  else if tag = "tr" then some .tableRowE
  else if tag = "td" ∨ tag = "th" then some .tableCellE
  else if tag = "br" then some .breakE
  else if tag = "hr" then some .hrE
  else none

/-- `ElementFactory.create_element`: look the tag up, defaulting to
`BlockElement`; despite the `Optional` annotation it always returns an
instance. -/
def createElement (tag : String) : Option ElementClass :=
  some ((TAG_TO_ELEMENT tag).getD .blockE)

/-- The tags with an entry in `TAG_TO_ELEMENT` (equivalently, the tags with
a dedicated branch in `_layout_node`). -/
def knownTags : List String :=
  ["text", "h1", "h2", "h3", "h4", "h5", "h6", "p", "div", "blockquote",
   "pre", "button", "input", "select", "option", "ul", "ol", "li",
   "b", "i", "u", "strong", "em", "code", "span", "a",
   "table", "tr", "td", "th", "br", "hr"]

/-! ## Claim theorems -/

/-- C6 (confirmed): cursor monotonicity: laying out any node through the
engine's dispatch leaves `current_y` at or above its previous value, for
every well-formed DOM tree (this covers every element kind; the table-cell
save/rewind happens inside row layout and is not observable across a node's
own layout call, so the claim's carve-out for cells is not even needed). -/
theorem claim_cursor_monotonicity (v x : ℚ) (n : DOMNode) (y : ℚ) :
    y ≤ (layoutNode v x n y).2 :=
  layoutNode_y_le v x n y

/-- C10 (confirmed): an `li` element that is not a direct child of a
`ul`/`ol` list is dispatched to list-item layout with no index: it gets no
marker and no marker position, its children are laid out at the given `x`,
and the cursor still advances by `0.5 * MARGIN` after the content. -/
theorem claim_li_without_list (v x y : ℚ) (tx : Option String)
    (cs : List DOMNode) :
    (layoutNode v x (.mk "li" tx cs) y).1 =
      some (layoutListItem v x (.mk "li" tx cs) none false y).1
    ∧ (layoutListItem v x (.mk "li" tx cs) none false y).1.marker = none
    ∧ (layoutListItem v x (.mk "li" tx cs) none false y).1.markerPos = none
    ∧ (layoutListItem v x (.mk "li" tx cs) none false y).1.children =
        (layoutChildren v x cs y).1
    ∧ (layoutNode v x (.mk "li" tx cs) y).2 =
        (layoutChildren v x cs y).2 + MARGIN * (1/2) := by
  refine ⟨?_, ?_, ?_, ?_, ?_⟩ <;>
    norm_num +decide [layoutNode, dispatchKind, HEADING_SIZES, layoutListItem,
      DOMNode.tag, LayoutNode.marker, LayoutNode.markerPos,
      LayoutNode.children, Option.map]

/-- C4 (confirmed): element dispatch is total: `create_element` returns an
element class for every tag string; a tag outside the dispatch table maps to
the Block class exactly as `div` does, and the engine lays such a node out
exactly as block layout, with the same box, children and cursor movement a
`div` with the same children would get. -/
theorem claim_dispatch_totality (tag : String) :
    (createElement tag).isSome = true
  ∧ (tag ∉ knownTags →
      createElement tag = some .blockE ∧ createElement tag = createElement "div")
  ∧ (tag ∉ knownTags → ∀ (v x y : ℚ) (tx : Option String) (cs : List DOMNode),
      layoutNode v x (.mk tag tx cs) y =
        (some (layoutBlock v x (.mk tag tx cs) y).1,
          (layoutBlock v x (.mk tag tx cs) y).2)
      ∧ (layoutBlock v x (.mk tag tx cs) y).1.box =
          (layoutBlock v x (.mk "div" tx cs) y).1.box
      ∧ (layoutBlock v x (.mk tag tx cs) y).1.children =
          (layoutBlock v x (.mk "div" tx cs) y).1.children
      ∧ (layoutBlock v x (.mk tag tx cs) y).2 =
          (layoutBlock v x (.mk "div" tx cs) y).2) := by
  refine ⟨by simp [createElement], ?_, ?_⟩
  · intro h
    simp only [knownTags, List.mem_cons, List.mem_singleton, not_or] at h
    obtain ⟨h1, h2, h3, h4, h5, h6, h7, h8, h9, h10, h11, h12, h13, h14, h15,
      h16, h17, h18, h19, h20, h21, h22, h23, h24, h25, h26, h27, h28, h29,
      h30, h31, h32⟩ := h
    constructor <;>
      simp [createElement, TAG_TO_ELEMENT, h1, h2, h3, h4, h5, h6, h7, h8, h9,
        h10, h11, h12, h13, h14, h15, h16, h17, h18, h19, h20, h21, h22, h23,
        h24, h25, h26, h27, h28, h29, h30, h31, h32]
  · intro h v x y tx cs
    simp only [knownTags, List.mem_cons, List.mem_singleton, not_or] at h
    obtain ⟨h1, h2, h3, h4, h5, h6, h7, h8, h9, h10, h11, h12, h13, h14, h15,
      h16, h17, h18, h19, h20, h21, h22, h23, h24, h25, h26, h27, h28, h29,
      h30, h31, h32⟩ := h
    have hk : dispatchKind tag = .block := by
      simp [dispatchKind, HEADING_SIZES, h1, h2, h3, h4, h5, h6, h7, h8, h9,
        h10, h11, h12, h13, h14, h15, h16, h17, h18, h19, h20, h21, h22, h23,
        h24, h25, h26, h27, h28, h29, h30, h31, h32]
    refine ⟨?_, ?_, ?_, ?_⟩
    · simp only [layoutNode, DOMNode.tag, hk]
    all_goals simp [layoutBlock, LayoutNode.box, LayoutNode.children]

/-- Witness for C4 at the unknown tag "foobar". -/
theorem claim_dispatch_totality_witness :
    "foobar" ∉ knownTags
  ∧ createElement "foobar" = some ElementClass.blockE
  ∧ (layoutBlock 800 10 (DOMNode.mk "foobar" none []) 0).1.box =
      (layoutBlock 800 10 (DOMNode.mk "div" none []) 0).1.box :=
  ⟨by decide, ((claim_dispatch_totality "foobar").2.1 (by decide)).1,
    (((claim_dispatch_totality "foobar").2.2 (by decide)) 800 10 0 none []).2.1⟩

/-- C7 counterexample: in the engine the browser runs, a whitespace-only
text child of a `div` does produce a layout node that is added to the
parent: the block's layout node has one child, where the claim says nothing
is added. -/
theorem claim_node_omission_counterexample :
    ((layoutNode 800 10 (.mk "div" none [.mk "text" (some "   ") []]) 0).1.map
      (fun ln => ln.children.length)) = some 1 := by
  norm_num +decide [layoutNode, dispatchKind, HEADING_SIZES, layoutBlock,
    layoutChildren, layoutText, layoutTextWithWidth, pyStrip, DOMNode.tag,
    DOMNode.children, DOMNode.text, LayoutNode.children, Option.map, MARGIN,
    PADDING]

/-- C7 (amended): the modular `TextElement.layout` yields no node for
empty or whitespace-only text, and `ButtonElement.layout` yields no node
when its resolved display text is empty (neither is an error, the cursor is
untouched); the monolithic engine's `_layout_text` instead returns a node
with a default box and no lines, leaving the cursor unchanged — a node that
block parents do add to their children. -/
theorem claim_node_omission_amended (v x y : ℚ) (mw : Option ℚ)
    (n : DOMNode) :
    (pyStrip (n.text.getD "") = "" →
      (textElementLayout v x mw n y).1 = none
      ∧ (textElementLayout v x mw n y).2 = y)
  ∧ (pyStrip (extractText n) = "" →
      (buttonElementLayout x n y).1 = none
      ∧ (buttonElementLayout x n y).2 = y)
  ∧ (pyStrip (n.text.getD "") = "" →
      layoutText v x n y =
        (.mk n ⟨0, 0, 0, 0⟩ [] none none none none none, y)) := by
  refine ⟨fun h => ?_, fun h => ?_, fun h => ?_⟩
  · constructor <;> simp [textElementLayout, h]
  · constructor <;> simp [buttonElementLayout, h]
  · simp [layoutText, layoutTextWithWidth, h]

/-- Witness for C7 (amended) at a whitespace-only text node and an empty
button. -/
theorem claim_node_omission_amended_witness :
    pyStrip ((DOMNode.mk "text" (some "   ") []).text.getD "") = ""
  ∧ (textElementLayout 800 10 none (.mk "text" (some "   ") []) 0).1 = none
  ∧ pyStrip (extractText (DOMNode.mk "button" none [])) = ""
  ∧ (buttonElementLayout 10 (.mk "button" none []) 0).1 = none := by
  have h1 : pyStrip ((DOMNode.mk "text" (some "   ") []).text.getD "") = "" := by
    decide
  have h2 : pyStrip (extractText (DOMNode.mk "button" none [])) = "" := by
    norm_num +decide [extractText, extractTextList, pyStrip]
  exact ⟨h1,
    ((claim_node_omission_amended 800 10 0 none
      (.mk "text" (some "   ") [])).1 h1).1,
    h2,
    ((claim_node_omission_amended 800 10 0 none
      (.mk "button" none [])).2.1 h2).1⟩

/-- C8 counterexample: the engine's `_layout_inline` on a `b` element with
no children (so every child yielded nothing) still returns a layout node
(with zero children), where the claim says no node at all is yielded. -/
theorem claim_inline_counterexample :
    ((layoutNode 800 10 (.mk "b" none []) 0).1).isSome = true
  ∧ (layoutNode 800 10 (.mk "b" none []) 0).1.map
      (fun ln => ln.children.length) = some 0 := by
  constructor <;>
    norm_num +decide [layoutNode, dispatchKind, HEADING_SIZES,
      layoutInlineWrap, layoutChildren, DOMNode.tag, LayoutNode.children,
      Option.map]

/-- C8 (amended): inline elements are transparent wrappers — children are
laid out at the same `x`, the cursor moves exactly as the children's own
layout moves it, and the inline node's box is the zero default; the modular
`InlineElement.layout` propagates "empty" by yielding `none` exactly when
every child yielded nothing, while the engine's `_layout_inline` always
yields a node. -/
theorem claim_inline_transparent_amended (v x y : ℚ) (t : String)
    (tx : Option String) (cs : List DOMNode) :
    (layoutInlineWrap v x (.mk t tx cs) y).1.children =
        (layoutChildren v x cs y).1
  ∧ (layoutInlineWrap v x (.mk t tx cs) y).2 = (layoutChildren v x cs y).2
  ∧ (layoutInlineWrap v x (.mk t tx cs) y).1.box = ⟨0, 0, 0, 0⟩
  ∧ ((inlineElementLayout v x (.mk t tx cs) y).1 = none ↔
      (layoutChildren v x cs y).1 = [])
  ∧ (inlineElementLayout v x (.mk t tx cs) y).2 =
      (layoutChildren v x cs y).2 := by
  refine ⟨?_, ?_, ?_, ?_, ?_⟩ <;>
    simp [layoutInlineWrap, inlineElementLayout, LayoutNode.children,
      LayoutNode.box, DOMNode.children, List.isEmpty_iff]

/-! ## Word-wrap lemmas (C5) -/

theorem wrapLines_join (maxW cw : ℚ) :
    ∀ (ws acc : List String) (lw : ℚ),
      (wrapLines maxW cw ws acc lw).flatten = acc ++ ws := by
  intro ws
  induction ws with
  | nil =>
    intro acc lw
    cases acc <;> simp [wrapLines]
  | cons w ws1 ih =>
    intro acc lw
    simp only [wrapLines]
    split
    · simp [ih]
    · simp [ih]

theorem wrapLines_stuck (maxW cw : ℚ) (hcw : 0 ≤ cw) (w : String) :
    ∀ (ws : List String) (lw : ℚ), maxW < lw →
      [w] ∈ wrapLines maxW cw ws [w] lw := by
  intro ws lw hlw
  cases ws with
  | nil => simp [wrapLines]
  | cons w2 ws2 =>
    simp only [wrapLines]
    split
    · exact List.mem_cons_self _ _
    · rename_i hcond
      exfalso
      have hge : (0 : ℚ) ≤ (w2.length : ℚ) * cw :=
        mul_nonneg (by positivity) hcw
      rw [not_and_or] at hcond
      rcases hcond with h | h
      · push_neg at h
        linarith
      · simp at h

theorem wrapLines_longword_mem (maxW cw : ℚ) (hcw : 0 ≤ cw) (w : String)
    (hw : maxW < (w.length : ℚ) * cw) :
    ∀ (ws acc : List String) (lw : ℚ), 0 ≤ lw → w ∈ ws →
      [w] ∈ wrapLines maxW cw ws acc lw := by
  intro ws
  induction ws with
  | nil =>
    intro acc lw _ hmem
    simp at hmem
  | cons w1 ws1 ih =>
    intro acc lw hlw hmem
    rcases List.mem_cons.mp hmem with heq | hmem1
    · subst heq
      simp only [wrapLines]
      split
      · exact List.mem_cons_of_mem _
          (wrapLines_stuck maxW cw hcw w ws1 _ hw)
      · rename_i hcond
        have hacc : acc = [] := by
          rw [not_and_or] at hcond
          rcases hcond with h | h
          · exfalso
            push_neg at h
            linarith
          · exact not_not.mp h
        rw [hacc]
        have : maxW < lw + (w.length : ℚ) * cw + cw := by linarith
        simpa using wrapLines_stuck maxW cw hcw w ws1 _ this
    · have h1 : (0 : ℚ) ≤ (w1.length : ℚ) * cw := mul_nonneg (by positivity) hcw
      simp only [wrapLines]
      split
      · exact List.mem_cons_of_mem _ (ih [w1] _ h1 hmem1)
      · exact ih (acc ++ [w1]) _ (by linarith) hmem1

/-- C5 counterexample: `wrap_text` does not pre-split on newlines and does
not preserve empty lines: on "a\n\nb" it yields the single line "a b",
where the claimed algorithm (newline wrap groups, empty lines preserved)
would yield the three lines "a", "", "b". -/
theorem claim_wrap_counterexample :
    wrapText "a\n\nb" 1000 8 = ["a b"]
  ∧ (["a b"] : List String) ≠ ["a", "", "b"] := by
  constructor
  · norm_num +decide [wrapText, pySplit, pyWordsAux, wrapLines, joinWords]
  · decide

/-- C5 (amended): the input is split on all whitespace at once (newlines
are ordinary separators, empty lines are not preserved); words are then
greedily accumulated, breaking only when the measured candidate line
exceeds the max width and the current line is nonempty — hence the emitted
lines carry exactly the input words, in order, unmodified (first conjunct),
and a single word wider than the max width is returned as its own line,
unmodified, never split or truncated (second conjunct). -/
theorem claim_wrap_amended (text : String) (maxW cw : ℚ) (hcw : 0 ≤ cw) :
    (wrapLines maxW cw (pySplit text) [] 0).flatten = pySplit text
  ∧ (∀ w ∈ pySplit text, maxW < (w.length : ℚ) * cw →
      w ∈ wrapText text maxW cw) := by
  refine ⟨wrapLines_join maxW cw (pySplit text) [] 0, fun w hmem hw => ?_⟩
  have h := wrapLines_longword_mem maxW cw hcw w hw (pySplit text) [] 0
    le_rfl hmem
  exact List.mem_map.mpr ⟨[w], h, rfl⟩

/-- Witness for C5 (amended): the 5-character word "aaaaa" at char width 8
exceeds a max width of 16 and is returned whole as its own line. -/
theorem claim_wrap_amended_witness :
    (0 : ℚ) ≤ 8
  ∧ "aaaaa" ∈ pySplit "aaaaa bb"
  ∧ (16 : ℚ) < ("aaaaa".length : ℚ) * 8
  ∧ "aaaaa" ∈ wrapText "aaaaa bb" 16 8 := by
  have h1 : (0 : ℚ) ≤ 8 := by norm_num
  have h2 : "aaaaa" ∈ pySplit "aaaaa bb" := by decide
  have hl : "aaaaa".length = 5 := by decide
  have h3 : (16 : ℚ) < ("aaaaa".length : ℚ) * 8 := by norm_num [hl]
  exact ⟨h1, h2, h3, (claim_wrap_amended "aaaaa bb" 16 8 h1).2 "aaaaa" h2 h3⟩

/-! ## Height consistency (C1) -/

theorem tableRows_mk (t : String) (tx : Option String) (cs : List DOMNode) :
    tableRows (.mk t tx cs) = cs.filter (fun c => c.tag = "tr") := rfl

theorem tableNumCols_mk (t : String) (tx : Option String)
    (cs : List DOMNode) (fr : DOMNode) (rest : List DOMNode)
    (h : cs.filter (fun c => c.tag = "tr") = fr :: rest) :
    tableNumCols (.mk t tx cs) =
      (fr.children.filter (fun c => isTdTh c)).length := by
  simp [tableNumCols, tableRows, DOMNode.children, h]

/-- C1 counterexample: a table with no rows records box height 0 while the
cursor still advances by MARGIN = 10 across its layout call. -/
theorem claim_height_consistency_counterexample :
    (layoutNode 800 10 (.mk "table" none []) 0).1.map
      (fun ln => ln.box.height) = some 0
  ∧ (layoutNode 800 10 (.mk "table" none []) 0).2 - 0 = 10
  ∧ (0 : ℚ) ≠ 10 := by
  refine ⟨?_, ?_, by norm_num⟩ <;>
    norm_num +decide [layoutNode, dispatchKind, HEADING_SIZES, layoutTable,
      DOMNode.tag, DOMNode.children, LayoutNode.box, MARGIN, Option.map]

/-- C1 (amended): for every Block, Heading and List node, and for every
Table node with at least one `tr` child whose first row has a nonzero
`td`/`th` count, the recorded box height equals `current_y_after -
current_y_before` around that node's layout call; a table with no rows or
zero columns instead records height 0 while the cursor still advances by
MARGIN. -/
theorem claim_height_consistency (v x y : ℚ) (n : DOMNode) :
    (layoutBlock v x n y).1.box.height = (layoutBlock v x n y).2 - y
  ∧ (layoutHeading v x n y).1.box.height = (layoutHeading v x n y).2 - y
  ∧ (layoutList v x n y).1.box.height = (layoutList v x n y).2 - y
  ∧ (tableRows n ≠ [] → tableNumCols n ≠ 0 →
      (layoutTable v x n y).1.box.height = (layoutTable v x n y).2 - y)
  ∧ (tableRows n = [] ∨ tableNumCols n = 0 →
      (layoutTable v x n y).1.box.height = 0
      ∧ (layoutTable v x n y).2 = y + MARGIN) := by
  obtain ⟨t, tx, cs⟩ := n
  refine ⟨?_, ?_, ?_, ?_, ?_⟩
  · simp [layoutBlock, LayoutNode.box]
  · simp [layoutHeading, LayoutNode.box]
  · simp [layoutList, LayoutNode.box]
  · intro hrow hcols
    rw [tableRows_mk] at hrow
    rcases heq : List.filter (fun c => decide (c.tag = "tr")) cs with _ | ⟨fr, rest⟩
    · exact absurd heq hrow
    · rw [tableNumCols_mk t tx cs fr rest heq] at hcols
      simp only [layoutTable, heq]
      rw [if_neg hcols]
      simp [LayoutNode.box]
  · intro hdeg
    rcases heq : List.filter (fun c => decide (c.tag = "tr")) cs with _ | ⟨fr, rest⟩
    · constructor <;> simp [layoutTable, heq, LayoutNode.box, MARGIN]
    · have hz : (List.filter (fun c => isTdTh c) fr.children).length = 0 := by
        rcases hdeg with h | h
        · rw [tableRows_mk, heq] at h
          simp at h
        · rw [tableNumCols_mk t tx cs fr rest heq] at h
          exact h
      constructor <;>
        · simp only [layoutTable, heq]
          first
          | (rw [if_pos hz]
             simp [LayoutNode.box])
          | simp [LayoutNode.box, hz]

/-- Witness for C1 at a one-row, one-cell table. -/
theorem claim_height_consistency_witness :
    tableRows (.mk "table" none [.mk "tr" none [.mk "td" none []]]) ≠ []
  ∧ tableNumCols (.mk "table" none [.mk "tr" none [.mk "td" none []]]) ≠ 0
  ∧ (layoutTable 800 10 (.mk "table" none [.mk "tr" none [.mk "td" none []]])
        0).1.box.height =
      (layoutTable 800 10
        (.mk "table" none [.mk "tr" none [.mk "td" none []]]) 0).2 - 0 := by
  have h1 : tableRows (.mk "table" none [.mk "tr" none [.mk "td" none []]]) ≠
      ([] : List DOMNode) := by
    simp +decide [tableRows, DOMNode.children, DOMNode.tag]
  have h2 : tableNumCols
      (.mk "table" none [.mk "tr" none [.mk "td" none []]]) ≠ 0 := by
    norm_num +decide [tableNumCols, tableRows, DOMNode.children, DOMNode.tag,
      isTdTh]
  exact ⟨h1, h2,
    (claim_height_consistency 800 10 0
      (.mk "table" none [.mk "tr" none [.mk "td" none []]])).2.2.2.1 h1 h2⟩

/-! ## Table row and cell lemmas (C2, C3) -/

theorem cell_dom (v x w : ℚ) (n : DOMNode) (y : ℚ) :
    (layoutTableCellWithWidth v x w n y).1.dom = n := by
  obtain ⟨t, tx, cs⟩ := n
  simp [layoutTableCellWithWidth, LayoutNode.dom]

theorem cell_box (v x w : ℚ) (n : DOMNode) (y : ℚ) :
    (layoutTableCellWithWidth v x w n y).1.box.x = x
  ∧ (layoutTableCellWithWidth v x w n y).1.box.y = y
  ∧ (layoutTableCellWithWidth v x w n y).1.box.width = w
  ∧ (layoutTableCellWithWidth v x w n y).1.box.height =
      (layoutTableCellWithWidth v x w n y).2 - y := by
  obtain ⟨t, tx, cs⟩ := n
  refine ⟨?_, ?_, ?_, ?_⟩ <;> simp [layoutTableCellWithWidth, LayoutNode.box]

theorem rowCellsRun_spec (v cw : ℚ) (k : ℕ) (sY : ℚ) :
    ∀ (l : List DOMNode) (cx : ℚ) (ci : ℕ) (rh : ℚ) (y : ℚ),
      ((rowCellsRun v cw k sY l cx ci rh y).1.map LayoutNode.dom
        = (l.filter (fun c => isTdTh c)).take (k - ci))
    ∧ (∀ cl ∈ (rowCellsRun v cw k sY l cx ci rh y).1,
        cl.box.y = sY + PADDING ∧ cl.box.width = cw - 2 * PADDING)
    ∧ ((rowCellsRun v cw k sY l cx ci rh y).2.1
        = List.foldl max rh ((rowCellsRun v cw k sY l cx ci rh y).1.map
            (fun c => c.box.height)))
    ∧ ((rowCellsRun v cw k sY l cx ci rh y).2.2 = y) := by
  intro l
  induction l with
  | nil =>
    intro cx ci rh y
    simp [rowCellsRun]
  | cons c cs ih =>
    intro cx ci rh y
    by_cases hc : isTdTh c = true ∧ ci < k
    · have hk : k - ci = (k - (ci + 1)) + 1 := by omega
      obtain ⟨ihdom, ihbox, ihfold, ihy⟩ :=
        ih (cx + cw) (ci + 1)
          (max rh ((layoutTableCellWithWidth v cx (cw - 2 * PADDING) c
            (sY + PADDING)).2 - sY - PADDING)) y
      obtain ⟨hbx, hby, hbw, hbh⟩ :=
        cell_box v cx (cw - 2 * PADDING) c (sY + PADDING)
      refine ⟨?_, ?_, ?_, ?_⟩
      · simp only [rowCellsRun, if_pos hc, List.map_cons, cell_dom,
          List.filter_cons_of_pos hc.1, hk, List.take_succ_cons]
        rw [ihdom]
      · intro cl hcl
        simp only [rowCellsRun, if_pos hc, List.mem_cons] at hcl
        rcases hcl with rfl | hcl
        · exact ⟨hby, hbw⟩
        · exact ihbox cl hcl
      · simp only [rowCellsRun, if_pos hc, List.map_cons, List.foldl_cons]
        rw [ihfold]
        congr 2
        rw [hbh]
        ring
      · simp only [rowCellsRun, if_pos hc]
        exact ihy
    · obtain ⟨ihdom, ihbox, ihfold, ihy⟩ := ih cx ci rh y
      refine ⟨?_, ?_, ?_, ?_⟩
      · simp only [rowCellsRun, if_neg hc]
        rw [ihdom]
        by_cases htd : isTdTh c = true
        · have hk0 : k - ci = 0 := by
            rcases not_and_or.mp hc with h | h
            · exact absurd htd h
            · omega
          simp [List.filter_cons_of_pos htd, hk0]
        · simp [List.filter_cons_of_neg htd]
      · intro cl hcl
        simp only [rowCellsRun, if_neg hc] at hcl
        exact ihbox cl hcl
      · simp only [rowCellsRun, if_neg hc]
        exact ihfold
      · simp only [rowCellsRun, if_neg hc]
        exact ihy

/-- C3 (confirmed): table-row layout: every cell's box starts at
`start_y + PADDING` (the rewind) with width `column_width - 2 * PADDING`;
the recorded row box height is
`max(fold of per-cell heights, DEFAULT_FONT_SIZE * LINE_HEIGHT) + 2 *
PADDING`; and the real cursor advances exactly once per row, ending at
`start_y + row_height + 2 * PADDING` — the per-cell save/restore leaves no
other trace on the cursor. -/
theorem claim_table_row_layout (v x cw : ℚ) (k : ℕ) (n : DOMNode) (y : ℚ) :
    (∀ cl ∈ (layoutTableRowWithWidth v x cw k n y).1.children,
      cl.box.y = y + PADDING ∧ cl.box.width = cw - 2 * PADDING)
  ∧ (layoutTableRowWithWidth v x cw k n y).1.box.height =
      max (List.foldl max 0
          ((layoutTableRowWithWidth v x cw k n y).1.children.map
            (fun c => c.box.height)))
        (DEFAULT_FONT_SIZE * LINE_HEIGHT) + 2 * PADDING
  ∧ (layoutTableRowWithWidth v x cw k n y).2 =
      y + (layoutTableRowWithWidth v x cw k n y).1.box.height := by
  obtain ⟨t, tx, cs⟩ := n
  obtain ⟨hdom, hbox, hfold, hy⟩ := rowCellsRun_spec v cw k y cs (x + PADDING) 0 0 y
  refine ⟨?_, ?_, ?_⟩
  · intro cl hcl
    simp only [layoutTableRowWithWidth, LayoutNode.children] at hcl
    exact hbox cl hcl
  · simp only [layoutTableRowWithWidth, LayoutNode.children, LayoutNode.box]
    rw [hfold]
    rfl
  · simp only [layoutTableRowWithWidth, LayoutNode.children, LayoutNode.box]
    ring

theorem row_children_eq (v x cw : ℚ) (k : ℕ) (n : DOMNode) (y : ℚ) :
    (layoutTableRowWithWidth v x cw k n y).1.children
      = (rowCellsRun v cw k y n.children (x + PADDING) 0 0 y).1 := by
  obtain ⟨t, tx, cs⟩ := n
  simp [layoutTableRowWithWidth, LayoutNode.children, DOMNode.children]

theorem tableRowsRun_spec (v x cw : ℚ) (k : ℕ) :
    ∀ (l : List DOMNode) (y : ℚ),
      ((tableRowsRun v x cw k l y).1.map
          (fun rl => rl.children.map LayoutNode.dom)
        = (l.filter (fun c => c.tag = "tr")).map
            (fun r => (r.children.filter (fun c => isTdTh c)).take k))
    ∧ (∀ rl ∈ (tableRowsRun v x cw k l y).1, ∀ cl ∈ rl.children,
        cl.box.width = cw - 2 * PADDING) := by
  intro l
  induction l with
  | nil =>
    intro y
    simp [tableRowsRun]
  | cons c cs ih =>
    intro y
    by_cases hc : c.tag = "tr"
    · obtain ⟨ihdom, ihw⟩ := ih (layoutTableRowWithWidth v x cw k c y).2
      obtain ⟨hdom, hbox, _, _⟩ :=
        rowCellsRun_spec v cw k y c.children (x + PADDING) 0 0 y
      constructor
      · simp only [tableRowsRun, if_pos hc, List.map_cons, row_children_eq]
        rw [hdom]
        simp [List.filter_cons, hc, ihdom]
      · intro rl hrl cl hcl
        simp only [tableRowsRun, if_pos hc, List.mem_cons] at hrl
        rcases hrl with rfl | hrl
        · rw [row_children_eq] at hcl
          exact (hbox cl hcl).2
        · exact ihw rl hrl cl hcl
    · obtain ⟨ihdom, ihw⟩ := ih y
      constructor
      · simp only [tableRowsRun, if_neg hc]
        simp [List.filter_cons, hc, ihdom]
      · intro rl hrl
        simp only [tableRowsRun, if_neg hc] at hrl
        exact ihw rl hrl

/-- C2 (confirmed): column sizing is a function of the first row only.
`calculate_column_widths` returns exactly the count of `td`/`th` children of
the first `tr` and the equal width `(viewport_width − 2x − 2·PADDING) /
column_count` (or `(0, 0)` for a zero count); a zero count makes the table
node's child list empty with no further processing; otherwise every laid-out
row holds exactly the first `column_count` `td`/`th` children of its own
`tr` (later cells are dropped, never laid out), and every cell box in every
row gets the same width `column_width − 2·PADDING`. -/
theorem claim_table_columns (v x y : ℚ) (n : DOMNode) :
    calculateColumnWidths (tableRows n) v x =
      (if tableNumCols n = 0 then ((0 : ℚ), (0 : ℕ))
       else ((v - 2 * x - 2 * PADDING) / (tableNumCols n : ℚ), tableNumCols n))
  ∧ (tableNumCols n = 0 → (layoutTable v x n y).1.children = [])
  ∧ (tableNumCols n ≠ 0 →
      ((layoutTable v x n y).1.children.map
          (fun rl => rl.children.map LayoutNode.dom)
        = (tableRows n).map
            (fun r => (r.children.filter (fun c => isTdTh c)).take
              (tableNumCols n)))
      ∧ ∀ rl ∈ (layoutTable v x n y).1.children, ∀ cl ∈ rl.children,
          cl.box.width =
            (v - 2 * x - 2 * PADDING) / (tableNumCols n : ℚ) - 2 * PADDING) := by
  obtain ⟨t, tx, cs⟩ := n
  rcases heq : List.filter (fun c => decide (c.tag = "tr")) cs with _ | ⟨fr, rest⟩
  · have hrows : tableRows (DOMNode.mk t tx cs) = [] := by
      rw [tableRows_mk]
      exact heq
    have hnc : tableNumCols (DOMNode.mk t tx cs) = 0 := by
      simp [tableNumCols, hrows]
    refine ⟨?_, fun _ => ?_, fun hk => absurd hnc hk⟩
    · rw [hrows, hnc]
      simp [calculateColumnWidths]
    · simp [layoutTable, heq, LayoutNode.children]
  · have hnc := tableNumCols_mk t tx cs fr rest heq
    have hrows : tableRows (DOMNode.mk t tx cs) = fr :: rest := by
      rw [tableRows_mk]
      exact heq
    by_cases hk : (fr.children.filter (fun c => isTdTh c)).length = 0
    · refine ⟨?_, fun _ => ?_, fun hkk => absurd (hnc.trans hk) hkk⟩
      · rw [hrows, hnc, hk]
        simp [calculateColumnWidths, hk]
      · simp only [layoutTable, heq]
        rw [if_pos hk]
        simp [LayoutNode.children]
    · obtain ⟨hdoms, hws⟩ := tableRowsRun_spec v x
        ((v - 2 * x - 2 * PADDING) /
          ((fr.children.filter (fun c => isTdTh c)).length : ℚ))
        ((fr.children.filter (fun c => isTdTh c)).length) cs (y + MARGIN)
      refine ⟨?_, fun h0 => absurd (hnc.symm.trans h0) hk, fun _ => ⟨?_, ?_⟩⟩
      · rw [hrows, hnc]
        simp [calculateColumnWidths, hk]
      · rw [hrows, hnc]
        simp only [layoutTable, heq]
        rw [if_neg hk]
        dsimp only
        simp only [LayoutNode.children]
        exact hdoms.trans (by rw [heq])
      · intro rl hrl cl hcl
        rw [hnc]
        simp only [layoutTable, heq] at hrl
        rw [if_neg hk] at hrl
        dsimp only at hrl
        simp only [LayoutNode.children] at hrl
        exact hws rl hrl cl hcl

/-- A table whose first row has two cells and whose second row has three:
the witness input for C2. -/
def tableEx2 : DOMNode :=
  .mk "table" none
    [.mk "tr" none [.mk "td" none [], .mk "td" none []],
     .mk "tr" none [.mk "td" none [], .mk "td" none [], .mk "td" none []]]

/-- Witness for C2: with a 2-column first row and a 3-cell second row, each
laid-out row keeps exactly the first two td children. -/
theorem claim_table_columns_witness :
    tableNumCols tableEx2 ≠ 0
  ∧ ((layoutTable 800 10 tableEx2 0).1.children.map
      (fun rl => rl.children.map LayoutNode.dom)
      = (tableRows tableEx2).map
          (fun r => (r.children.filter (fun c => isTdTh c)).take
            (tableNumCols tableEx2))) := by
  have h : tableNumCols tableEx2 ≠ 0 := by
    norm_num +decide [tableNumCols, tableRows, tableEx2, DOMNode.children,
      DOMNode.tag, isTdTh]
  exact ⟨h, ((claim_table_columns 800 10 0 tableEx2).2.2 h).1⟩

/-! ## Deep nesting and box sign (C9) -/

theorem nestDiv_tag (k : ℕ) : (nestDiv k).tag = "div" := by
  cases k <;> simp [nestDiv, DOMNode.tag]

theorem widthAtDepth_cons (k : ℕ) (d : DOMNode) (b : Box)
    (c : LayoutNode) (rest : List LayoutNode) (l : Option (List String))
    (f : Option ℚ) (m : Option String) (mp : Option (ℚ × ℚ))
    (dt : Option String) :
    widthAtDepth (k + 1) (.mk d b (c :: rest) l f m mp dt) =
      widthAtDepth k c := by
  simp [widthAtDepth, descend, LayoutNode.children]

theorem nestDiv_width (v : ℚ) :
    ∀ (k : ℕ) (x y : ℚ),
      widthAtDepth k (layoutBlock v x (nestDiv k) y).1 =
        v - 2 * (x + 5 * k) := by
  intro k
  induction k with
  | zero =>
    intro x y
    simp [nestDiv, layoutBlock, layoutChildren, widthAtDepth, descend,
      LayoutNode.box]
  | succ k ih =>
    intro x y
    have hdisp : dispatchKind "div" = EngineKind.block := by decide
    have hnode : layoutNode v (x + PADDING) (nestDiv k) (y + MARGIN) =
        (some (layoutBlock v (x + PADDING) (nestDiv k) (y + MARGIN)).1,
          (layoutBlock v (x + PADDING) (nestDiv k) (y + MARGIN)).2) := by
      simp only [layoutNode, nestDiv_tag, hdisp]
    show widthAtDepth (k + 1)
        (layoutBlock v x (.mk "div" none [nestDiv k]) y).1 = _
    simp only [layoutBlock, layoutChildren, hnode]
    rw [widthAtDepth_cons]
    rw [ih (x + PADDING) (y + MARGIN)]
    push_cast
    norm_num [PADDING]
    ring

/-- C9 counterexample: 80 nested `div`s starting from the root margin push
`x` to 405, so the box at depth 80 records width
`800 - 2 * 405 = -10 < 0`: box widths are not nonnegative on deeply nested
input. -/
theorem claim_box_counterexample :
    widthAtDepth 80 (computeLayout 800 (.mk "html" none [nestDiv 79])) = -10
  ∧ (-10 : ℚ) < 0 := by
  refine ⟨?_, by norm_num⟩
  have hdisp : dispatchKind "div" = EngineKind.block := by decide
  have hnode : layoutNode 800 (0 + MARGIN) (nestDiv 79) 0 =
      (some (layoutBlock 800 (0 + MARGIN) (nestDiv 79) 0).1,
        (layoutBlock 800 (0 + MARGIN) (nestDiv 79) 0).2) := by
    simp only [layoutNode, nestDiv_tag, hdisp]
  have hcond : (nestDiv 79).tag ≠ "text" ∨
      (strTruthy (nestDiv 79).text = true ∧
        pyStrip ((nestDiv 79).text.getD "") ≠ "") := by
    left
    rw [nestDiv_tag]
    decide
  have hrun : (rootChildrenRun 800 [nestDiv 79] 0).1 =
      [(layoutBlock 800 (0 + MARGIN) (nestDiv 79) 0).1] := by
    simp only [rootChildrenRun]
    rw [if_pos hcond]
    simp only [hnode]
  have h79 := nestDiv_width 800 79 (0 + MARGIN) 0
  calc widthAtDepth 80 (computeLayout 800 (.mk "html" none [nestDiv 79]))
      = widthAtDepth 79 (layoutBlock 800 (0 + MARGIN) (nestDiv 79) 0).1 := by
        simp only [computeLayout, DOMNode.children]
        rw [hrun, widthAtDepth_cons]
    _ = 800 - 2 * ((0 + MARGIN) + 5 * 79) := h79
    _ = -10 := by norm_num [MARGIN]

mutual

/-- All nodes of a layout subtree, in preorder. -/
def nodesOf (ln : LayoutNode) : List LayoutNode :=
  match ln with
  | .mk d b c l f m mp dt => .mk d b c l f m mp dt :: nodesOfList c
termination_by (sizeOf ln, 1)

/-- All nodes of a forest of layout subtrees. -/
def nodesOfList (l : List LayoutNode) : List LayoutNode :=
  match l with
  | [] => []
  | c :: cs => nodesOf c ++ nodesOfList cs
termination_by (sizeOf l, 2)

end

/-- The nodes of an optional layout result. -/
def optNodes : Option LayoutNode → List LayoutNode
  | none => []
  | some ln => nodesOf ln

/-- The nonnegativity C9 can still claim for every box: `y` and `height`
(x and width can go negative under deep nesting). -/
def boxNonneg (nd : LayoutNode) : Prop :=
  0 ≤ nd.box.y ∧ 0 ≤ nd.box.height

theorem layoutTextWithWidth_ok (x w : ℚ) (n : DOMNode) (y : ℚ)
    (hy : 0 ≤ y) :
    ∀ nd ∈ nodesOf (layoutTextWithWidth x w n y).1, boxNonneg nd := by
  intro nd hnd
  simp only [layoutTextWithWidth] at hnd
  split at hnd
  · simp [nodesOf, nodesOfList] at hnd
    subst hnd
    simp [boxNonneg, LayoutNode.box]
  · simp [nodesOf, nodesOfList] at hnd
    subst hnd
    refine ⟨by simpa [LayoutNode.box] using hy, ?_⟩
    simp only [boxNonneg, LayoutNode.box]
    have : (0 : ℚ) ≤
        ((wrapText (pyStrip (n.text.getD "")) w CHAR_WIDTH_ESTIMATE).length : ℚ) *
          DEFAULT_FONT_SIZE * LINE_HEIGHT := by
      norm_num [DEFAULT_FONT_SIZE, LINE_HEIGHT]
    simpa using this

theorem headingRun_ok (v x mult : ℚ) (hm : 0 ≤ mult) :
    ∀ (l : List DOMNode) (y : ℚ), 0 ≤ y →
      ∀ nd ∈ nodesOfList (headingRun v x mult l y).1, boxNonneg nd := by
  intro l
  induction l with
  | nil =>
    intro y hy nd hnd
    simp [headingRun, nodesOfList] at hnd
  | cons c cs ih =>
    intro y hy nd hnd
    have hh : (0 : ℚ) ≤ DEFAULT_FONT_SIZE * mult * LINE_HEIGHT := by
      have h1 : (0 : ℚ) ≤ DEFAULT_FONT_SIZE := by norm_num [DEFAULT_FONT_SIZE]
      have h2 : (0 : ℚ) ≤ LINE_HEIGHT := by norm_num [LINE_HEIGHT]
      exact mul_nonneg (mul_nonneg h1 hm) h2
    simp only [headingRun] at hnd
    split at hnd
    · split at hnd
      · simp only [nodesOfList, List.mem_append] at hnd
        rcases hnd with hnd | hnd
        · simp [nodesOf, nodesOfList] at hnd
          subst hnd
          exact ⟨by simpa [LayoutNode.box] using hy,
            by simpa [LayoutNode.box] using hh⟩
        · exact ih (y + DEFAULT_FONT_SIZE * mult * LINE_HEIGHT)
            (by linarith) nd hnd
      · exact ih y hy nd hnd
    · exact ih y hy nd hnd

theorem layoutHeading_ok (v x : ℚ) (n : DOMNode) (y : ℚ) (hy : 0 ≤ y) :
    ∀ nd ∈ nodesOf (layoutHeading v x n y).1, boxNonneg nd := by
  obtain ⟨t, tx, cs⟩ := n
  intro nd hnd
  have hm := heading_mult_nonneg t
  have hrun := headingRun_y_le v x ((HEADING_SIZES t).getD 1) hm cs
    (y + MARGIN * (3/2))
  have hM : (0 : ℚ) ≤ MARGIN * (3/2) := by norm_num [MARGIN]
  simp only [layoutHeading, nodesOf] at hnd
  rcases List.mem_cons.mp hnd with rfl | hnd
  · exact ⟨by simpa [LayoutNode.box] using hy,
      by simp only [LayoutNode.box]; linarith⟩
  · exact headingRun_ok v x _ hm cs (y + MARGIN * (3/2)) (by linarith) nd hnd

mutual

theorem layoutNode_ok (v x : ℚ) (n : DOMNode) (y : ℚ) (hy : 0 ≤ y) :
    ∀ nd ∈ optNodes (layoutNode v x n y).1, boxNonneg nd := by
  intro nd hnd
  rw [layoutNode] at hnd
  cases hk : dispatchKind n.tag with
  | text =>
    rw [hk] at hnd
    exact layoutTextWithWidth_ok x (v - 2 * x) n y hy nd
      (by simpa [optNodes, layoutText] using hnd)
  | block =>
    rw [hk] at hnd
    exact layoutBlock_ok v x n y hy nd (by simpa [optNodes] using hnd)
  | heading =>
    rw [hk] at hnd
    exact layoutHeading_ok v x n y hy nd (by simpa [optNodes] using hnd)
  | list =>
    rw [hk] at hnd
    exact layoutList_ok v x n y hy nd (by simpa [optNodes] using hnd)
  | listItem =>
    rw [hk] at hnd
    exact layoutListItem_ok v x n none false y hy nd
      (by simpa [optNodes] using hnd)
  | lineBreak =>
    rw [hk] at hnd
    simp [optNodes] at hnd
  | rule =>
    rw [hk] at hnd
    simp only [optNodes, nodesOf, nodesOfList] at hnd
    rcases List.mem_cons.mp hnd with rfl | hnd
    · exact ⟨by simpa [LayoutNode.box] using hy,
        by simp [LayoutNode.box]⟩
    · simp [nodesOfList] at hnd
  | inlineWrap =>
    rw [hk] at hnd
    exact layoutInlineWrap_ok v x n y hy nd (by simpa [optNodes] using hnd)
  | table =>
    rw [hk] at hnd
    exact layoutTable_ok v x n y hy nd (by simpa [optNodes] using hnd)
  | tableRow =>
    rw [hk] at hnd
    exact layoutTableRowWithWidth_ok v x 100 1 n y hy nd
      (by simpa [optNodes] using hnd)
  | tableCell =>
    rw [hk] at hnd
    exact layoutTableCellWithWidth_ok v x 100 n y hy nd
      (by simpa [optNodes] using hnd)
termination_by (sizeOf n, 2)

theorem layoutChildren_ok (v x : ℚ) (l : List DOMNode) (y : ℚ)
    (hy : 0 ≤ y) :
    ∀ nd ∈ nodesOfList (layoutChildren v x l y).1, boxNonneg nd := by
  match l with
  | [] =>
    intro nd hnd
    simp [layoutChildren, nodesOfList] at hnd
  | c :: cs =>
    intro nd hnd
    have hy2 : (0 : ℚ) ≤ (layoutNode v x c y).2 :=
      le_trans hy (layoutNode_y_le v x c y)
    simp only [layoutChildren] at hnd
    split at hnd
    · rename_i ln heq
      simp only [nodesOfList, List.mem_append] at hnd
      rcases hnd with hnd | hnd
      · refine layoutNode_ok v x c y hy nd ?_
        rw [heq]
        exact hnd
      · exact layoutChildren_ok v x cs (layoutNode v x c y).2 hy2 nd hnd
    · exact layoutChildren_ok v x cs (layoutNode v x c y).2 hy2 nd hnd
termination_by (sizeOf l, 3)

theorem layoutBlock_ok (v x : ℚ) (n : DOMNode) (y : ℚ) (hy : 0 ≤ y) :
    ∀ nd ∈ nodesOf (layoutBlock v x n y).1, boxNonneg nd := by
  match n with
  | .mk t tx cs =>
    intro nd hnd
    have hrun := layoutChildren_y_le v (x + PADDING) cs (y + MARGIN)
    have hM : (0 : ℚ) ≤ MARGIN := by norm_num [MARGIN]
    simp only [layoutBlock, nodesOf] at hnd
    rcases List.mem_cons.mp hnd with rfl | hnd
    · exact ⟨by simpa [LayoutNode.box] using hy,
        by simp only [LayoutNode.box]; linarith⟩
    · exact layoutChildren_ok v (x + PADDING) cs (y + MARGIN)
        (by linarith) nd hnd
termination_by (sizeOf n, 1)

theorem listRun_ok (v itemX : ℚ) (ordered : Bool) (l : List DOMNode)
    (i : ℕ) (y : ℚ) (hy : 0 ≤ y) :
    ∀ nd ∈ nodesOfList (listRun v itemX ordered l i y).1, boxNonneg nd := by
  match l with
  | [] =>
    intro nd hnd
    simp [listRun, nodesOfList] at hnd
  | c :: cs =>
    intro nd hnd
    have hy2 : (0 : ℚ) ≤ (layoutListItem v itemX c (some (i + 1)) ordered y).2 :=
      le_trans hy (layoutListItem_y_le v itemX c (some (i + 1)) ordered y)
    simp only [listRun] at hnd
    split at hnd
    · simp only [nodesOfList, List.mem_append] at hnd
      rcases hnd with hnd | hnd
      · exact layoutListItem_ok v itemX c (some (i + 1)) ordered y hy nd hnd
      · exact listRun_ok v itemX ordered cs (i + 1)
          (layoutListItem v itemX c (some (i + 1)) ordered y).2 hy2 nd hnd
    · exact listRun_ok v itemX ordered cs (i + 1) y hy nd hnd
termination_by (sizeOf l, 3)

theorem layoutList_ok (v x : ℚ) (n : DOMNode) (y : ℚ) (hy : 0 ≤ y) :
    ∀ nd ∈ nodesOf (layoutList v x n y).1, boxNonneg nd := by
  match n with
  | .mk t tx cs =>
    intro nd hnd
    have hrun := listRun_y_le v (x + 25) (t = "ol") cs 0 (y + MARGIN)
    have hM : (0 : ℚ) ≤ MARGIN := by norm_num [MARGIN]
    simp only [layoutList, nodesOf] at hnd
    rcases List.mem_cons.mp hnd with rfl | hnd
    · exact ⟨by simpa [LayoutNode.box] using hy,
        by simp only [LayoutNode.box]; linarith⟩
    · exact listRun_ok v (x + 25) (t = "ol") cs 0 (y + MARGIN)
        (by linarith) nd hnd
termination_by (sizeOf n, 1)

theorem layoutListItem_ok (v x : ℚ) (n : DOMNode) (index : Option ℕ)
    (ordered : Bool) (y : ℚ) (hy : 0 ≤ y) :
    ∀ nd ∈ nodesOf (layoutListItem v x n index ordered y).1, boxNonneg nd := by
  match n with
  | .mk t tx cs =>
    intro nd hnd
    have hrun := layoutChildren_y_le v x cs y
    have hM : (0 : ℚ) ≤ MARGIN * (1/2) := by norm_num [MARGIN]
    simp only [layoutListItem, nodesOf] at hnd
    rcases List.mem_cons.mp hnd with rfl | hnd
    · exact ⟨by simpa [LayoutNode.box] using hy,
        by simp only [LayoutNode.box]; linarith⟩
    · exact layoutChildren_ok v x cs y hy nd hnd
termination_by (sizeOf n, 1)

theorem layoutInlineWrap_ok (v x : ℚ) (n : DOMNode) (y : ℚ) (hy : 0 ≤ y) :
    ∀ nd ∈ nodesOf (layoutInlineWrap v x n y).1, boxNonneg nd := by
  match n with
  | .mk t tx cs =>
    intro nd hnd
    simp only [layoutInlineWrap, nodesOf] at hnd
    rcases List.mem_cons.mp hnd with rfl | hnd
    · exact ⟨by simp [LayoutNode.box], by simp [LayoutNode.box]⟩
    · exact layoutChildren_ok v x cs y hy nd hnd
termination_by (sizeOf n, 1)

theorem layoutTable_ok (v x : ℚ) (n : DOMNode) (y : ℚ) (hy : 0 ≤ y) :
    ∀ nd ∈ nodesOf (layoutTable v x n y).1, boxNonneg nd := by
  match n with
  | .mk t tx cs =>
    intro nd hnd
    have hM : (0 : ℚ) ≤ MARGIN := by norm_num [MARGIN]
    simp only [layoutTable] at hnd
    split at hnd
    · simp only [nodesOf, nodesOfList] at hnd
      rcases List.mem_cons.mp hnd with rfl | hnd
      · exact ⟨by simpa [LayoutNode.box] using hy, by simp [LayoutNode.box]⟩
      · simp at hnd
    · split at hnd
      · simp only [nodesOf, nodesOfList] at hnd
        rcases List.mem_cons.mp hnd with rfl | hnd
        · exact ⟨by simpa [LayoutNode.box] using hy, by simp [LayoutNode.box]⟩
        · simp at hnd
      · rename_i fr rest heq hnz
        have hrun := tableRowsRun_y_le v x
          ((v - 2 * x - 2 * PADDING) /
            ((fr.children.filter (fun c => isTdTh c)).length : ℚ))
          ((fr.children.filter (fun c => isTdTh c)).length) cs (y + MARGIN)
        simp only [nodesOf] at hnd
        rcases List.mem_cons.mp hnd with rfl | hnd
        · exact ⟨by simpa [LayoutNode.box] using hy,
            by simp only [LayoutNode.box]; linarith⟩
        · exact tableRowsRun_ok v x _ _ cs (y + MARGIN) (by linarith) nd hnd
termination_by (sizeOf n, 1)

theorem tableRowsRun_ok (v x cw : ℚ) (k : ℕ) (l : List DOMNode) (y : ℚ)
    (hy : 0 ≤ y) :
    ∀ nd ∈ nodesOfList (tableRowsRun v x cw k l y).1, boxNonneg nd := by
  match l with
  | [] =>
    intro nd hnd
    simp [tableRowsRun, nodesOfList] at hnd
  | c :: cs =>
    intro nd hnd
    have hy2 : (0 : ℚ) ≤ (layoutTableRowWithWidth v x cw k c y).2 :=
      le_trans hy (layoutTableRowWithWidth_y_le v x cw k c y)
    simp only [tableRowsRun] at hnd
    split at hnd
    · simp only [nodesOfList, List.mem_append] at hnd
      rcases hnd with hnd | hnd
      · exact layoutTableRowWithWidth_ok v x cw k c y hy nd hnd
      · exact tableRowsRun_ok v x cw k cs
          (layoutTableRowWithWidth v x cw k c y).2 hy2 nd hnd
    · exact tableRowsRun_ok v x cw k cs y hy nd hnd
termination_by (sizeOf l, 3)

theorem layoutTableRowWithWidth_ok (v x cw : ℚ) (k : ℕ) (n : DOMNode)
    (y : ℚ) (hy : 0 ≤ y) :
    ∀ nd ∈ nodesOf (layoutTableRowWithWidth v x cw k n y).1, boxNonneg nd := by
  match n with
  | .mk t tx cs =>
    intro nd hnd
    have hmax : DEFAULT_FONT_SIZE * LINE_HEIGHT ≤
        max (rowCellsRun v cw k y cs (x + PADDING) 0 0 y).2.1
          (DEFAULT_FONT_SIZE * LINE_HEIGHT) := le_max_right _ _
    have hfs : (0 : ℚ) < DEFAULT_FONT_SIZE * LINE_HEIGHT := by
      norm_num [DEFAULT_FONT_SIZE, LINE_HEIGHT]
    have hP : (0 : ℚ) ≤ PADDING := by norm_num [PADDING]
    simp only [layoutTableRowWithWidth, nodesOf] at hnd
    rcases List.mem_cons.mp hnd with rfl | hnd
    · exact ⟨by simpa [LayoutNode.box] using hy,
        by simp only [LayoutNode.box]; linarith⟩
    · exact rowCellsRun_ok v cw k y hy cs (x + PADDING) 0 0 y nd hnd
termination_by (sizeOf n, 1)

theorem rowCellsRun_ok (v cw : ℚ) (k : ℕ) (sY : ℚ) (hsY : 0 ≤ sY)
    (l : List DOMNode) (cx : ℚ) (ci : ℕ) (rh : ℚ) (y : ℚ) :
    ∀ nd ∈ nodesOfList (rowCellsRun v cw k sY l cx ci rh y).1,
      boxNonneg nd := by
  match l with
  | [] =>
    intro nd hnd
    simp [rowCellsRun, nodesOfList] at hnd
  | c :: cs =>
    intro nd hnd
    have hP : (0 : ℚ) ≤ PADDING := by norm_num [PADDING]
    simp only [rowCellsRun] at hnd
    split at hnd
    · simp only [nodesOfList, List.mem_append] at hnd
      rcases hnd with hnd | hnd
      · exact layoutTableCellWithWidth_ok v cx (cw - 2 * PADDING) c
          (sY + PADDING) (by linarith) nd hnd
      · exact rowCellsRun_ok v cw k sY hsY cs (cx + cw) (ci + 1) _ y nd hnd
    · exact rowCellsRun_ok v cw k sY hsY cs cx ci rh y nd hnd
termination_by (sizeOf l, 3)

theorem layoutTableCellWithWidth_ok (v x w : ℚ) (n : DOMNode) (y : ℚ)
    (hy : 0 ≤ y) :
    ∀ nd ∈ nodesOf (layoutTableCellWithWidth v x w n y).1, boxNonneg nd := by
  match n with
  | .mk t tx cs =>
    intro nd hnd
    have hrun := cellChildrenRun_y_le v x w cs y
    have hfs : (0 : ℚ) < DEFAULT_FONT_SIZE * LINE_HEIGHT := by
      norm_num [DEFAULT_FONT_SIZE, LINE_HEIGHT]
    simp only [layoutTableCellWithWidth, nodesOf] at hnd
    rcases List.mem_cons.mp hnd with rfl | hnd
    · refine ⟨by simpa [LayoutNode.box] using hy, ?_⟩
      simp only [LayoutNode.box]
      split <;> linarith
    · exact cellChildrenRun_ok v x w cs y hy nd hnd
termination_by (sizeOf n, 1)

theorem cellChildrenRun_ok (v x w : ℚ) (l : List DOMNode) (y : ℚ)
    (hy : 0 ≤ y) :
    ∀ nd ∈ nodesOfList (cellChildrenRun v x w l y).1, boxNonneg nd := by
  match l with
  | [] =>
    intro nd hnd
    simp [cellChildrenRun, nodesOfList] at hnd
  | c :: cs =>
    intro nd hnd
    by_cases hc : c.tag = "text"
    · have hy2 : (0 : ℚ) ≤
          (layoutTextWithWidth (x + PADDING) (w - 2 * PADDING) c y).2 :=
        le_trans hy (layoutTextWithWidth_y_le (x + PADDING) (w - 2 * PADDING) c y)
      simp only [cellChildrenRun, if_pos hc] at hnd
      simp only [nodesOfList, List.mem_append] at hnd
      rcases hnd with hnd | hnd
      · exact layoutTextWithWidth_ok (x + PADDING) (w - 2 * PADDING) c y hy
          nd hnd
      · exact cellChildrenRun_ok v x w cs
          (layoutTextWithWidth (x + PADDING) (w - 2 * PADDING) c y).2 hy2
          nd hnd
    · have hy2 : (0 : ℚ) ≤ (layoutNode v (x + PADDING) c y).2 :=
        le_trans hy (layoutNode_y_le v (x + PADDING) c y)
      simp only [cellChildrenRun, if_neg hc] at hnd
      split at hnd
      · rename_i ln heq
        simp only [nodesOfList, List.mem_append] at hnd
        rcases hnd with hnd | hnd
        · refine layoutNode_ok v (x + PADDING) c y hy nd ?_
          rw [heq]
          exact hnd
        · exact cellChildrenRun_ok v x w cs (layoutNode v (x + PADDING) c y).2
            hy2 nd hnd
      · exact cellChildrenRun_ok v x w cs (layoutNode v (x + PADDING) c y).2
          hy2 nd hnd
termination_by (sizeOf l, 3)

end

theorem rootChildrenRun_y_le (v : ℚ) :
    ∀ (l : List DOMNode) (y : ℚ), y ≤ (rootChildrenRun v l y).2 := by
  intro l
  induction l with
  | nil => intro y; simp [rootChildrenRun]
  | cons c cs ih =>
    intro y
    have h1 := layoutNode_y_le v (0 + MARGIN) c y
    have h2 := ih (layoutNode v (0 + MARGIN) c y).2
    have h3 := ih y
    simp only [rootChildrenRun]
    split
    · split <;> linarith
    · linarith

theorem rootChildrenRun_ok (v : ℚ) :
    ∀ (l : List DOMNode) (y : ℚ), 0 ≤ y →
      ∀ nd ∈ nodesOfList (rootChildrenRun v l y).1, boxNonneg nd := by
  intro l
  induction l with
  | nil =>
    intro y hy nd hnd
    simp [rootChildrenRun, nodesOfList] at hnd
  | cons c cs ih =>
    intro y hy nd hnd
    have hy2 : (0 : ℚ) ≤ (layoutNode v (0 + MARGIN) c y).2 :=
      le_trans hy (layoutNode_y_le v (0 + MARGIN) c y)
    simp only [rootChildrenRun] at hnd
    split at hnd
    · split at hnd
      · rename_i ln heq
        simp only [nodesOfList, List.mem_append] at hnd
        rcases hnd with hnd | hnd
        · refine layoutNode_ok v (0 + MARGIN) c y hy nd ?_
          rw [heq]
          exact hnd
        · exact ih (layoutNode v (0 + MARGIN) c y).2 hy2 nd hnd
      · exact ih (layoutNode v (0 + MARGIN) c y).2 hy2 nd hnd
    · exact ih y hy nd hnd

/-- C9 (amended): every layout node produced by `compute_layout` has
`box.y ≥ 0` and `box.height ≥ 0`; `box.x` and `box.width` are not
guaranteed nonnegative, since nesting deep enough that
`viewport_width - 2x` turns negative produces negative widths (and, through
tables, negative x). -/
theorem claim_box_nonneg_amended (v : ℚ) (root : DOMNode) :
    ∀ nd ∈ nodesOf (computeLayout v root),
      0 ≤ nd.box.y ∧ 0 ≤ nd.box.height := by
  intro nd hnd
  simp only [computeLayout, nodesOf] at hnd
  rcases List.mem_cons.mp hnd with rfl | hnd
  · constructor
    · simp [LayoutNode.box]
    · simp only [LayoutNode.box]
      have := rootChildrenRun_y_le v root.children 0
      linarith
  · exact rootChildrenRun_ok v root.children 0 le_rfl nd hnd

/-- Witness for C9 (amended) at an empty document: the root node itself. -/
theorem claim_box_nonneg_amended_witness :
    (computeLayout 800 (.mk "html" none [])) ∈
      nodesOf (computeLayout 800 (.mk "html" none []))
  ∧ 0 ≤ (computeLayout 800 (.mk "html" none [])).box.y
  ∧ 0 ≤ (computeLayout 800 (.mk "html" none [])).box.height := by
  have hmem : (computeLayout 800 (.mk "html" none [])) ∈
      nodesOf (computeLayout 800 (.mk "html" none [])) := by
    simp only [computeLayout, DOMNode.children, nodesOf]
    exact List.mem_cons_self _ _
  exact ⟨hmem, claim_box_nonneg_amended 800 (.mk "html" none [])
    (computeLayout 800 (.mk "html" none [])) hmem⟩

end Toy
